import Mathlib

/-!
Verification of the YARA rule-analysis scripts of this repository
(`scripts/atom_analyzer.py` and `scripts/yara_lint.py`): a shallow embedding
of the scoring, parsing and lint-check functions, together with theorems
settling the specification claims.

Modelling conventions:
* Python `bytes` are `List Nat` (each element a byte value).
* Python `str` is Lean `String` / `List Char`; the regex character classes
  `\w`, `\s`, `\d` and `str.lower()` are modelled with their ASCII meaning.
* The specific regular expressions used by the scripts are implemented as
  deterministic matchers (none of the patterns used needs backtracking
  beyond the optional-group fallback, which is modelled explicitly).
* `re.finditer`-style scanning is modelled by a fuelled scanner that tries
  the matcher at every position and continues after the end of each match;
  the fuel is the length of the input, which is always sufficient because
  every matcher consumes at least one character.
-/

namespace YaraTools

/-! ### Character classes and Python string helpers -/
/-- Python whitespace for `\s`, `str.split()` and `str.strip()` (ASCII part). -/
def pyIsSpace (c : Char) : Bool :=
  c = ' ' || c = '\t' || c = '\n' || c = '\r' || c = '\x0b' || c = '\x0c'

/-- The regex class `\w` (ASCII part). -/
def isWordChar (c : Char) : Bool := c.isAlpha || c.isDigit || c = '_'

/-- The regex class `[0-9A-Fa-f]`. -/
def pyIsHexDigit (c : Char) : Bool :=
  c.isDigit || ('A' ≤ c && c ≤ 'F') || ('a' ≤ c && c ≤ 'f')

/-- Python `str.strip()` on a character list. -/
def pyStripList (cs : List Char) : List Char :=
  ((cs.dropWhile pyIsSpace).reverse.dropWhile pyIsSpace).reverse

/-- Python `str.strip()`. -/
def pyStrip (s : String) : String := ⟨pyStripList s.data⟩

/-- Python `str.strip(chars)`: remove the given characters from both ends. -/
def pyStripCharsList (p : Char → Bool) (cs : List Char) : List Char :=
  ((cs.dropWhile p).reverse.dropWhile p).reverse

/-- Helper for `pySplit`: accumulates the current word (reversed). -/
def pySplitAux : List Char → List Char → List String
  | [], acc => if acc.isEmpty then [] else [⟨acc.reverse⟩]
  | c :: cs, acc =>
    if pyIsSpace c then
      if acc.isEmpty then pySplitAux cs [] else ⟨acc.reverse⟩ :: pySplitAux cs []
    else pySplitAux cs (c :: acc)

/-- Python `str.split()` (no argument): split on whitespace runs, no empties. -/
def pySplit (s : String) : List String := pySplitAux s.data []

/-- Python ASCII `str.lower()` on a character list. -/
def lowerList (cs : List Char) : List Char := cs.map Char.toLower

/-- Helper for `splitOnChar`: accumulates the current piece (reversed). -/
def splitOnCharAux (sep : Char) : List Char → List Char → List String
  | [], acc => [⟨acc.reverse⟩]
  | c :: cs, acc =>
    if c = sep then ⟨acc.reverse⟩ :: splitOnCharAux sep cs []
    else splitOnCharAux sep cs (c :: acc)

/-- Python `s.split(sep)` for a one-character separator (keeps empties). -/
def splitOnChar (sep : Char) (s : String) : List String :=
  splitOnCharAux sep s.data []

/-- Whether `needle` is a prefix of `hay` (Python `bytes.startswith` shape). -/
def startsSeq {α : Type} [DecidableEq α] : List α → List α → Bool
  | [], _ => true
  | _ :: _, [] => false
  | a :: as, b :: bs => if a = b then startsSeq as bs else false

/-- Python `needle in hay` for sequences: contiguous-subsequence test. -/
def containsSeq {α : Type} [DecidableEq α] : List α → List α → Bool
  | needle, [] => needle.isEmpty
  | needle, b :: t => startsSeq needle (b :: t) || containsSeq needle t

/-- Python `sub in s` for strings. -/
def strContains (hay sub : String) : Bool := containsSeq sub.data hay.data

/-- Python `s.startswith(pre)`. -/
def pyStartsWith (s pre : String) : Bool := startsSeq pre.data s.data

/-- Python `len(set(l))`: number of distinct elements. -/
def distinctCount (l : List Nat) : Nat :=
  (l.foldl (fun acc b => if b ∈ acc then acc else b :: acc) []).length

/-! ### `atom_analyzer.py`: scoring (`score_atom`, `find_best_atom`) -/
/-- Source `REPEATED_PATTERNS`: repeated byte patterns that generate poor atoms. -/
def REPEATED_PATTERNS : List (List Nat × String) :=
  [([0x00, 0x00, 0x00, 0x00], "null bytes (0x00000000)"),
   ([0x90, 0x90, 0x90, 0x90], "NOP sled (0x90909090)"),
   ([0xCC, 0xCC, 0xCC, 0xCC], "INT3 padding (0xCCCCCCCC)"),
   ([0xFF, 0xFF, 0xFF, 0xFF], "all 0xFF bytes"),
   ([0x20, 0x20, 0x20, 0x20], "spaces (0x20202020)")]

/-- Source `COMMON_SEQUENCES`: common 4-byte sequences that appear in many files. -/
def COMMON_SEQUENCES : List (List Nat) :=
  [[0x54, 0x68, 0x69, 0x73],
   [0x70, 0x72, 0x6F, 0x67],
   [0x4D, 0x4F, 0x44, 0x45],
   [0x72, 0x69, 0x63, 0x68],
   [0x2E, 0x74, 0x65, 0x78],
   [0x2E, 0x64, 0x61, 0x74],
   [0x2E, 0x72, 0x73, 0x72],
   [0x4D, 0x5A, 0x90, 0x00],
   [0x68, 0x74, 0x74, 0x70],
   [0x48, 0x54, 0x54, 0x50]]

/-- Source `score_atom`: score a 4-byte atom for quality (0-100). -/
def score_atom (atom : List Nat) : Int :=
  if atom.length ≠ 4 then 0
  else
    let score0 : Int := 100
    let score1 :=
      if distinctCount atom = 1 then score0 - 80
      else if distinctCount atom = 2 then score0 - 40
      else score0
    let score2 := score1 - (atom.count 0) * 15
    let score3 :=
      if REPEATED_PATTERNS.any (fun p => containsSeq p.1 atom) then score2 - 60
      else score2
    let score4 :=
      if COMMON_SEQUENCES.any (fun s => containsSeq s atom) then score3 - 30
      else score3
    let score5 :=
      if atom.all (fun b => decide (0x20 ≤ b) && decide (b ≤ 0x7E)) then score4 - 10
      else score4
    max 0 score5

/-- Hex digit for `bytes.hex().upper()`. -/
def hexDigU (n : Nat) : Char :=
  if n < 10 then Char.ofNat (48 + n) else Char.ofNat (55 + n)

/-- Source `bytes.hex().upper()`. -/
def bytesToHexUpper (bs : List Nat) : String :=
  ⟨bs.flatMap (fun b => [hexDigU (b / 16 % 16), hexDigU (b % 16)])⟩

/-- The 4-byte window `data[i:i+4]` of `find_best_atom`. -/
def fbaWindow (data : List Nat) (i : Nat) : List Nat := (data.drop i).take 4

/-- Source `any(p in range(i, i + 4) for p in wildcard_positions)`. -/
def fbaSkip (wild : List Nat) (i : Nat) : Bool :=
  wild.any (fun p => decide (i ≤ p) && decide (p < i + 4))

/-- One iteration of the `find_best_atom` loop. -/
def fbaStep (data wild : List Nat) (acc : Option String × Int) (i : Nat) :
    Option String × Int :=
  if fbaSkip wild i then acc
  else
    let score := score_atom (fbaWindow data i)
    if acc.2 < score then (some (bytesToHexUpper (fbaWindow data i)), score) else acc

/-- Source `find_best_atom`: find the best 4-byte atom in a byte sequence. -/
def find_best_atom (data wild : List Nat) : Option String × Int :=
  if data.length < 4 then (none, 0)
  else (List.range (data.length - 3)).foldl (fbaStep data wild) (none, 0)

/-! ### Claim C1: the shape of `score_atom` -/
/-- The five bad patterns as the claim lists them. -/
def badPatternsSpec : List (List Nat) :=
  [[0x00, 0x00, 0x00, 0x00], [0x90, 0x90, 0x90, 0x90], [0xCC, 0xCC, 0xCC, 0xCC],
   [0xFF, 0xFF, 0xFF, 0xFF], [0x20, 0x20, 0x20, 0x20]]

/-- The accumulated penalty `P` exactly as the claim describes it. -/
def penaltySpec (atom : List Nat) : Int :=
  (if distinctCount atom = 1 then 80
   else if distinctCount atom = 2 then 40 else 0)
  + 15 * (atom.count 0 : Int)
  + (if atom ∈ badPatternsSpec then 60 else 0)
  + (if COMMON_SEQUENCES.any (fun s => containsSeq s atom) then 30 else 0)
  + (if atom.all (fun b => decide (0x20 ≤ b) && decide (b ≤ 0x7E)) then 10 else 0)

/-! ### Deterministic matchers for the regexes used by the scripts -/
/-- Consume one expected character. -/
def expectChar (c : Char) : List Char → Option (List Char)
  | [] => none
  | x :: rest => if x = c then some rest else none

/-- Consume a nonempty `\w+` run. -/
def wordRun (cs : List Char) : Option (List Char × List Char) :=
  let w := cs.takeWhile isWordChar
  if w.isEmpty then none else some (w, cs.dropWhile isWordChar)

/-- A text/regex string-definition match:
`(\$\w+)\s*=\s*D([^D]*)D([^\n]*)` for a delimiter `D`. -/
structure TextM where
  name : String
  value : String
  trailing : String
deriving DecidableEq

/-- Matcher for `(\$\w+)\s*=\s*D([^D]*)D([^\n]*)` at the current position. -/
def tryDelim (d : Char) (cs : List Char) : Option (TextM × List Char) :=
  (expectChar '$' cs).bind fun r0 =>
  (wordRun r0).bind fun wr =>
  (expectChar '=' (wr.2.dropWhile pyIsSpace)).bind fun r3 =>
  (expectChar d (r3.dropWhile pyIsSpace)).bind fun r5 =>
  (expectChar d (r5.dropWhile (fun c => c != d))).bind fun r6 =>
  some (⟨⟨'$' :: wr.1⟩, ⟨r5.takeWhile (fun c => c != d)⟩,
         ⟨r6.takeWhile (fun c => c != '\n')⟩⟩,
        r6.dropWhile (fun c => c != '\n'))

/-- A hex string-definition match: `(\$\w+)\s*=\s*\x7b([^\x7d]*)\x7d`. -/
structure HexM where
  name : String
  value : String
deriving DecidableEq

/-- Matcher for the hex string-definition pattern at the current position. -/
def tryHex (cs : List Char) : Option (HexM × List Char) :=
  (expectChar '$' cs).bind fun r0 =>
  (wordRun r0).bind fun wr =>
  (expectChar '=' (wr.2.dropWhile pyIsSpace)).bind fun r3 =>
  (expectChar '\x7b' (r3.dropWhile pyIsSpace)).bind fun r5 =>
  (expectChar '\x7d' (r5.dropWhile (fun c => c != '\x7d'))).bind fun r6 =>
  some (⟨⟨'$' :: wr.1⟩, ⟨r5.takeWhile (fun c => c != '\x7d')⟩⟩, r6)

/-! ### Fuelled `re.finditer`-style scanners -/
/-- Source `re.finditer`: try the matcher at every position, continuing after the end
of each (nonempty) match.  `fuel` bounds the number of scanning steps; whenever
`fuel ≥ cs.length` and the matcher always consumes at least one character, the
scan runs to completion. -/
def scanP {α : Type} (M : List Char → Option (α × List Char)) :
    Nat → List Char → List α
  | 0, _ => []
  | _ + 1, [] => []
  | fuel + 1, c :: cs =>
    match M (c :: cs) with
    | some (m, rest) => m :: scanP M fuel rest
    | none => scanP M fuel cs

/-- Variant of `scanP` instrumented with the start offset of each match. -/
def scanPPos {α : Type} (M : List Char → Option (α × List Char)) :
    Nat → Nat → List Char → List (Nat × α)
  | 0, _, _ => []
  | _ + 1, _, [] => []
  | fuel + 1, pos, c :: cs =>
    match M (c :: cs) with
    | some (m, rest) =>
      (pos, m) :: scanPPos M fuel (pos + ((c :: cs).length - rest.length)) rest
    | none => scanPPos M fuel (pos + 1) cs

/-! ### `extract_strings`: the three extraction passes over a strings section -/
/-- The three kinds of string definition. -/
inductive SKind
  | text
  | byte
  | regex
deriving DecidableEq

/-- A parsed string definition (the dict built by `extract_strings`). -/
structure StrDef where
  name : String
  value : String
  kind : SKind
  modifiers : List String
deriving DecidableEq

/-- Dict built for a text match: modifiers are `group(3).strip().split()`. -/
def textDefOf (m : TextM) : StrDef :=
  ⟨m.name, m.value, SKind.text, pySplit (pyStrip m.trailing)⟩

/-- Dict built for a hex match: value is `group(2).strip()`, no modifiers. -/
def hexDefOf (m : HexM) : StrDef :=
  ⟨m.name, pyStrip m.value, SKind.byte, []⟩

/-- Dict built for a regex match: modifiers are `group(3).strip().split()`. -/
def rexDefOf (m : TextM) : StrDef :=
  ⟨m.name, m.value, SKind.regex, pySplit (pyStrip m.trailing)⟩

/-- The body of `extract_strings` once the strings section is in hand: three
independent `re.finditer` passes (text, then hex, then regex), appended in
that order. -/
def parseStringsSection (cs : List Char) : List StrDef :=
  (scanP (tryDelim '"') cs.length cs).map textDefOf
  ++ (scanP tryHex cs.length cs).map hexDefOf
  ++ (scanP (tryDelim '/') cs.length cs).map rexDefOf

/-! ### Claim C4: modifiers of parsed string definitions -/
/-- A hex match extended with the trailing same-line text, as the claim
describes hex definitions to be parsed (the code's hex pass captures no
trailing group; this variant follows the claim words for comparison). -/
structure HexTM where
  name : String
  value : String
  trailing : String
deriving DecidableEq

/-- Claim-side matcher `(\$\w+)\s*=\s*\x7b([^\x7d]*)\x7d([^\n]*)`: like the
code's hex pattern but also capturing the trailing tokens after the closing
delimiter on the same line, as the claim says all three kinds are parsed. -/
def tryHexTrail (cs : List Char) : Option (HexTM × List Char) :=
  (expectChar '$' cs).bind fun r0 =>
  (wordRun r0).bind fun wr =>
  (expectChar '=' (wr.2.dropWhile pyIsSpace)).bind fun r3 =>
  (expectChar '\x7b' (r3.dropWhile pyIsSpace)).bind fun r5 =>
  (expectChar '\x7d' (r5.dropWhile (fun c => c != '\x7d'))).bind fun r6 =>
  some (⟨⟨'$' :: wr.1⟩, ⟨r5.takeWhile (fun c => c != '\x7d')⟩,
         ⟨r6.takeWhile (fun c => c != '\n')⟩⟩,
        r6.dropWhile (fun c => c != '\n'))

/-! ### `hex_string_to_bytes`: decoding a hex pattern body -/
/-- Value of a hex digit character. -/
def hexDigitVal (c : Char) : Nat :=
  if c.isDigit then c.toNat - 48
  else if 'A' ≤ c && c ≤ 'F' then c.toNat - 55
  else if 'a' ≤ c && c ≤ 'f' then c.toNat - 87
  else 0

/-- Source `re.match(r"^[0-9A-Fa-f]\x7b2\x7d$", token)`. -/
def hexTok2 : List Char → Bool
  | [a, b] => pyIsHexDigit a && pyIsHexDigit b
  | _ => false

/-- Source `re.match(r"^[0-9A-Fa-f?]\x7b2\x7d$", token)`. -/
def hexWild2 : List Char → Bool
  | [a, b] => (pyIsHexDigit a || a = '?') && (pyIsHexDigit b || b = '?')
  | _ => false

/-- Source `int(token, 16)` for a two-hex-digit token. -/
def hexVal2 : List Char → Nat
  | [a, b] => 16 * hexDigitVal a + hexDigitVal b
  | _ => 0

/-- The token loop of `hex_string_to_bytes` (byte and wildcard accumulators
are kept reversed). -/
def hexFold : List String → List Nat → List Nat → Nat → List Nat × List Nat
  | [], bs, ws, _ => (bs.reverse, ws.reverse)
  | t :: ts, bs, ws, pos =>
    if t = "??" then hexFold ts (0 :: bs) (pos :: ws) (pos + 1)
    else if hexTok2 t.data then hexFold ts (hexVal2 t.data :: bs) ws (pos + 1)
    else if hexWild2 t.data then hexFold ts (0 :: bs) (pos :: ws) (pos + 1)
    else hexFold ts bs ws pos

/-- Source `hex_string_to_bytes`: bytes (wildcards as 0) and wildcard positions;
jump and alternation tokens are skipped without advancing the position. -/
def hex_string_to_bytes (s : String) : List Nat × List Nat :=
  let inner := pyStripList
    (pyStripCharsList (fun c => c = '\x7b' || c = '\x7d') (pyStripList s.data))
  hexFold (pySplitAux inner []) [] [] 0

/-! ### `analyze_text_string` (atom analyzer) -/
/-- UTF-8 encoding of one character. -/
def encodeChar (c : Char) : List Nat :=
  let n := c.toNat
  if n < 0x80 then [n]
  else if n < 0x800 then [0xC0 + n / 64, 0x80 + n % 64]
  else if n < 0x10000 then [0xE0 + n / 4096, 0x80 + n / 64 % 64, 0x80 + n % 64]
  else [0xF0 + n / 262144, 0x80 + n / 4096 % 64, 0x80 + n / 64 % 64, 0x80 + n % 64]

/-- Source `value.encode("utf-8")`. -/
def encodeUtf8 (s : String) : List Nat := s.data.flatMap encodeChar

/-- An `AtomIssue` of the atom analyzer. -/
structure AtomIssue where
  string_id : String
  severity : String
  message : String
  suggestion : Option String
deriving DecidableEq

/-- A `StringAnalysis` of the atom analyzer. -/
structure StringAnalysis where
  string_id : String
  string_type : String
  raw_value : String
  byte_count : Nat
  issues : List AtomIssue
  best_atom : Option String
deriving DecidableEq

/-- Message of the text minimum-length error. -/
def textMinLenMsg (n : Nat) : String :=
  s!"String is only {n} bytes; no valid 4-byte atom possible"

/-- The text minimum-length error issue. -/
def textMinLenIssue (sid : String) (n : Nat) : AtomIssue :=
  ⟨sid, "error", textMinLenMsg n, some "Use a longer string (4+ bytes minimum)"⟩

/-- Message of the base64 minimum-length error. -/
def base64Msg (n : Nat) : String :=
  s!"String uses \x27base64\x27 but is only {n} chars; YARA-X requires 3+ characters for base64 modifier"

/-- The base64 minimum-length error issue. -/
def base64Issue (sid : String) (n : Nat) : AtomIssue :=
  ⟨sid, "error", base64Msg n, some "Use a string of 3+ characters with base64 modifier"⟩

/-- Source `analyze_text_string`: analyze a text string for atom quality. -/
def analyze_text_string (sid value : String) (modifiers : List String) :
    StringAnalysis :=
  let byte_count := value.length
  if byte_count < 4 then
    ⟨sid, "text", value, byte_count, [textMinLenIssue sid byte_count], none⟩
  else
    let issues1 :=
      if "base64" ∈ modifiers ∧ byte_count < 3 then [base64Issue sid byte_count]
      else []
    let ba := find_best_atom (encodeUtf8 value) []
    let score := ba.2
    let issues2 :=
      if score < 30 then
        [⟨sid, "error",
          s!"Best atom score is {score}/100; string will cause slow scanning",
          some "Choose a more unique string or add distinguishing bytes"⟩]
      else if score < 60 then
        [⟨sid, "warning",
          s!"Best atom score is {score}/100; may cause performance issues", none⟩]
      else []
    let issues3 :=
      if "nocase" ∈ modifiers ∧ byte_count > 15 then
        [⟨sid, "info", "\x27nocase\x27 on long string doubles atom generation",
          some "Consider if case-insensitivity is truly needed"⟩]
      else []
    let issues4 :=
      if "wide" ∈ modifiers ∧ "ascii" ∈ modifiers then
        [⟨sid, "info",
          "\x27wide ascii\x27 doubles matching; ensure both encodings are needed",
          none⟩]
      else []
    ⟨sid, "text", value, byte_count, issues1 ++ issues2 ++ issues3 ++ issues4, ba.1⟩

/-! ### `yara_lint.py`: data model and constant tables -/
/-- A linting issue (the `line` field is never set by any check). -/
structure Issue where
  rule : String
  severity : String
  code : String
  message : String
  line : Option Nat
deriving DecidableEq

def VALID_CATEGORY_PREFIXES : List String :=
  ["MAL", "HKTL", "WEBSHELL", "EXPL", "VULN", "SUSP", "PUA", "GEN", "APT",
   "CRIME", "RANSOM", "RAT", "MINER", "STEALER", "LOADER", "C2"]

/-- The FP-prone string vocabulary (a frozenset in the source; its iteration
order is modelled as the source listing order). -/
def FP_PRONE_STRINGS : List String :=
  ["cmd.exe", "powershell.exe", "explorer.exe", "notepad.exe", "VirtualAlloc",
   "VirtualProtect", "CreateRemoteThread", "WriteProcessMemory",
   "ReadProcessMemory", "NtCreateThread", "KERNEL32.dll", "ntdll.dll",
   "USER32.dll", "ADVAPI32.dll", "C:\\Windows", "C:\\Windows\\System32",
   "%s", "%d", "%x", "%08x", "http://", "https://"]

def DEPRECATED_PATTERNS : List (String × String) :=
  [("entrypoint", "Use pe.entry_point instead of deprecated entrypoint"),
   ("PEiD", "PEiD-style signatures are obsolete; use modern detection")]

/-! ### Issue constructors (severity, code and message fixed per check) -/
def w001Issue (rule_name : String) : Issue :=
  ⟨rule_name, "warning", "W001",
   s!"Rule name \x27{rule_name}\x27 should follow CATEGORY_PLATFORM_FAMILY_DATE format",
   none⟩

def i001Issue (rule_name p0 : String) : Issue :=
  ⟨rule_name, "info", "I001",
   s!"Unrecognized category prefix \x27{p0}\x27; expected one of: APT, C2, CRIME, EXPL, GEN, HKTL, LOADER, MAL, MINER, PUA, RANSOM, RAT, STEALER, SUSP, VULN, WEBSHELL",
   none⟩

def e001Issue (rule_name fieldName : String) : Issue :=
  ⟨rule_name, "error", "E001", s!"Missing required metadata field: {fieldName}",
   none⟩

def w002Issue (rule_name : String) : Issue :=
  ⟨rule_name, "warning", "W002", "Description should start with \x27Detects\x27",
   none⟩

def w003Issue (rule_name : String) (n : Nat) : Issue :=
  ⟨rule_name, "warning", "W003",
   s!"Description too short ({n} chars); aim for 60-400 characters", none⟩

def i002Issue (rule_name : String) (n : Nat) : Issue :=
  ⟨rule_name, "info", "I002",
   s!"Description quite long ({n} chars); consider trimming to <400", none⟩

def w004Issue (rule_name : String) : Issue :=
  ⟨rule_name, "warning", "W004",
   "Missing \x27reference\x27 metadata; add URL to analysis or source", none⟩

def e002Issue (rule_name sid : String) (n : Nat) : Issue :=
  ⟨rule_name, "error", "E002",
   s!"String {sid} is only {n} bytes; minimum 4 bytes for good atoms", none⟩

def w005Issue (rule_name sid fp : String) : Issue :=
  ⟨rule_name, "warning", "W005",
   s!"String {sid} contains FP-prone pattern \x27{fp}\x27", none⟩

def e006Issue (rule_name sid : String) (n : Nat) : Issue :=
  ⟨rule_name, "error", "E006",
   s!"String {sid} uses \x27base64\x27 but is only {n} chars; YARA-X requires 3+ characters for base64 modifier",
   none⟩

def e003Issue (rule_name sid : String) (n : Nat) : Issue :=
  ⟨rule_name, "error", "E003",
   s!"Hex string {sid} has only {n} bytes; minimum 4 for good atoms", none⟩

def w006Issue (rule_name sid : String) : Issue :=
  ⟨rule_name, "warning", "W006",
   s!"Hex string {sid} starts with wildcard; move fixed bytes first for better atoms",
   none⟩

def e007Issue (rule_name sid : String) : Issue :=
  ⟨rule_name, "error", "E007",
   s!"Regex {sid} has unescaped \x27\x7b\x27; YARA-X requires escaping as \x27\\\x7b\x27",
   none⟩

def w008Issue (rule_name sid : String) : Issue :=
  ⟨rule_name, "warning", "W008",
   s!"Regex {sid} has unbounded quantifier (.*/.+); use bounded quantifiers \x7b1,N\x7d",
   none⟩

def i003Issue (rule_name sid : String) : Issue :=
  ⟨rule_name, "info", "I003",
   s!"String {sid} uses \x27nocase\x27 on long string; performance impact", none⟩

def i004Issue (rule_name sid : String) : Issue :=
  ⟨rule_name, "info", "I004",
   s!"String {sid} uses \x27xor\x27 without range; generates 255 patterns", none⟩

def w007Issue (rule_name msg : String) : Issue :=
  ⟨rule_name, "warning", "W007", msg, none⟩

def e008Issue (rule_name : String) : Issue :=
  ⟨rule_name, "error", "E008",
   "Negative array indexing (e.g., @a[-1]) not supported in YARA-X; use @a[#a - 1] instead",
   none⟩

/-! ### The checks -/
/-- Source `check_naming_convention`. -/
def check_naming_convention (rule_name : String) : List Issue :=
  let parts := splitOnChar '_' rule_name
  if parts.length < 3 then [w001Issue rule_name]
  else if parts.headD "" ∈ VALID_CATEGORY_PREFIXES then []
  else [i001Issue rule_name (parts.headD "")]

/-- Python dict lookup over the insertion list: last write wins. -/
def dget : List (String × String) → String → Option String
  | [], _ => none
  | kv :: rest, k =>
    match dget rest k with
    | some v => some v
    | none => if kv.1 = k then some kv.2 else none

/-- Source `check_metadata`. -/
def check_metadata (rule_name : String) (metadata : List (String × String)) :
    List Issue :=
  (["description", "author", "date"].flatMap fun f =>
    if dget metadata f = none then [e001Issue rule_name f] else [])
  ++ (match dget metadata "description" with
      | none => []
      | some desc =>
        (if ¬ pyStartsWith desc "Detects" then [w002Issue rule_name] else [])
        ++ (if desc.length < 60 then [w003Issue rule_name desc.length] else [])
        ++ (if desc.length > 400 then [i002Issue rule_name desc.length] else []))
  ++ (if dget metadata "reference" = none then [w004Issue rule_name] else [])

/-- Number of matches of `re.findall(r"[0-9A-Fa-f]\x7b2\x7d", s)`:
non-overlapping two-hex-digit substrings, scanned left to right. -/
def countHexPairs : List Char → Nat
  | c1 :: c2 :: rest =>
    if pyIsHexDigit c1 && pyIsHexDigit c2 then countHexPairs rest + 1
    else countHexPairs (c2 :: rest)
  | _ => 0

/-- Source `re.match(r"^\s*\?\?", hex_value)`. -/
def hexLeadingWild (cs : List Char) : Bool :=
  match cs.dropWhile pyIsSpace with
  | '?' :: '?' :: _ => true
  | _ => false

/-- Search for `(?<!\\)\x7b(?![0-9])`: an unescaped brace not followed by a
digit (the scan carries the previous character for the lookbehind). -/
def unescapedBraceScan : Option Char → List Char → Bool
  | _, [] => false
  | prev, c :: rest =>
    (c == '\x7b' && !(prev == some '\\')
      && (match rest with | d :: _ => !d.isDigit | [] => true))
    || unescapedBraceScan (some c) rest

def hasUnescapedBrace (cs : List Char) : Bool := unescapedBraceScan none cs

/-- Search for `(?<!\\)\.\*(?!\?)` or `(?<!\\)\.\+(?!\?)`. -/
def unboundedScan : Option Char → List Char → Bool
  | _, [] => false
  | prev, c :: rest =>
    (c == '.' && !(prev == some '\\')
      && (match rest with
          | q :: rest2 =>
            (q == '*' || q == '+')
            && (match rest2 with | r :: _ => !(r == '?') | [] => true)
          | [] => false))
    || unboundedScan (some c) rest

def hasUnbounded (cs : List Char) : Bool := unboundedScan none cs

/-- The body of the `check_strings` loop for one string definition. -/
def check_strings_one (rule_name : String) (s : StrDef) : List Issue :=
  (if s.kind = SKind.text then
    (if s.value.length < 4 then [e002Issue rule_name s.name s.value.length] else [])
    ++ (FP_PRONE_STRINGS.flatMap fun fp =>
        if containsSeq (lowerList fp.data) (lowerList s.value.data) then
          [w005Issue rule_name s.name fp]
        else [])
    ++ (if "base64" ∈ s.modifiers ∧ s.value.length < 3 then
          [e006Issue rule_name s.name s.value.length]
        else [])
  else [])
  ++ (if s.kind = SKind.byte then
    (if countHexPairs s.value.data < 4 then
      [e003Issue rule_name s.name (countHexPairs s.value.data)]
     else [])
    ++ (if hexLeadingWild s.value.data then [w006Issue rule_name s.name] else [])
  else [])
  ++ (if s.kind = SKind.regex then
    (if hasUnescapedBrace s.value.data then [e007Issue rule_name s.name] else [])
    ++ (if hasUnbounded s.value.data then [w008Issue rule_name s.name] else [])
  else [])

/-- Source `check_strings`. -/
def check_strings (rule_name : String) (strings : List StrDef) : List Issue :=
  strings.flatMap (check_strings_one rule_name)

/-- Source `check_string_modifiers`. -/
def check_string_modifiers (rule_name : String) (strings : List StrDef) :
    List Issue :=
  strings.flatMap fun s =>
    (if "nocase" ∈ s.modifiers ∧ s.value.length > 20 then
      [i003Issue rule_name s.name]
     else [])
    ++ (if "xor" ∈ s.modifiers
          ∧ ¬ (s.modifiers.any fun m => containsSeq "xor(".data m.data) then
          [i004Issue rule_name s.name]
        else [])

/-! ### Rule-block location and section extraction -/
/-- Consume an expected literal. -/
def stripPrefixChars : List Char → List Char → Option (List Char)
  | [], cs => some cs
  | _ :: _, [] => none
  | l :: ls, c :: cs => if c = l then stripPrefixChars ls cs else none

/-- The brace-depth counting loop: number of characters consumed until the
depth returns to 0 (or the input ends). -/
def braceWalk : List Char → Nat → Nat
  | [], _ => 0
  | c :: rest, depth =>
    if depth = 0 then 0
    else 1 + braceWalk rest
      (if c = '\x7b' then depth + 1 else if c = '\x7d' then depth - 1 else depth)

/-- Match `rule\s+NAME\s*\x7b` at the current position, returning the suffix
after the opening brace. -/
def matchRuleHeaderAt (rn : List Char) (cs : List Char) : Option (List Char) :=
  (stripPrefixChars "rule".data cs).bind fun r1 =>
  match r1 with
  | c :: _ =>
    if pyIsSpace c then
      (stripPrefixChars rn (r1.dropWhile pyIsSpace)).bind fun r2 =>
      match r2.dropWhile pyIsSpace with
      | '\x7b' :: r4 => some r4
      | _ => none
    else none
  | [] => none

/-- Leftmost match of the rule-header pattern (`re.search`). -/
def findRuleTail (rn : List Char) : List Char → Option (List Char)
  | [] => none
  | c :: cs =>
    match matchRuleHeaderAt rn (c :: cs) with
    | some r => some r
    | none => findRuleTail rn cs

/-- Source `content[start:pos-1]`: the rule body up to its matching closing brace. -/
def findRuleContent (content rn : List Char) : Option (List Char) :=
  (findRuleTail rn content).map fun tail => tail.take (braceWalk tail 1 - 1)

/-- Leftmost occurrence of `KW\s*:`, returning the suffix after the colon. -/
def afterKwColon (kw : List Char) : List Char → Option (List Char)
  | [] => none
  | c :: cs =>
    match (stripPrefixChars kw (c :: cs)).bind (fun r =>
      match r.dropWhile pyIsSpace with
      | ':' :: r2 => some r2
      | _ => none) with
    | some r2 => some r2
    | none => afterKwColon kw cs

/-- Does `KW\s*:` match at this position (the section lookahead)? -/
def isKwColonAt (kw suf : List Char) : Bool :=
  match stripPrefixChars kw suf with
  | some r =>
    match r.dropWhile pyIsSpace with
    | ':' :: _ => true
    | _ => false
  | none => false

/-- Characters up to the first position where `p` holds of the suffix
(the lazy group `(.*?)` bounded by a lookahead or end of input). -/
def takeUntilP (p : List Char → Bool) : List Char → List Char
  | [] => []
  | c :: cs => if p (c :: cs) then [] else c :: takeUntilP p cs

/-- Matcher for one `(\w+)\s*=\s*"([^"]*)"` metadata pair. -/
def tryMetaKV (cs : List Char) : Option ((String × String) × List Char) :=
  (wordRun cs).bind fun wr =>
  (expectChar '=' (wr.2.dropWhile pyIsSpace)).bind fun r3 =>
  (expectChar '"' (r3.dropWhile pyIsSpace)).bind fun r5 =>
  (expectChar '"' (r5.dropWhile (fun c => c != '"'))).bind fun r6 =>
  some ((⟨wr.1⟩, ⟨r5.takeWhile (fun c => c != '"')⟩), r6)

/-- The `meta` section of a rule body:
`meta\s*:\s*(.*?)(?=strings\s*:|condition\s*:|$)` (DOTALL).  The greedy `\s*`
takes the maximal whitespace run (the lookahead alternatives start with a
non-space letter) and the lazy group then ends at the earliest lookahead
position.  Python `$` can also match just before a final newline; the section
here may thus keep one trailing newline Python would drop, which no
per-definition pattern can match into. -/
def metaSectionOf (rc : List Char) : Option (List Char) :=
  (afterKwColon "meta".data rc).map fun after =>
    takeUntilP (fun suf =>
        isKwColonAt "strings".data suf || isKwColonAt "condition".data suf)
      (after.dropWhile pyIsSpace)

/-- Source `extract_metadata`. -/
def extract_metadata (content rule_name : String) : List (String × String) :=
  match findRuleContent content.data rule_name.data with
  | none => []
  | some rc =>
    match metaSectionOf rc with
    | none => []
    | some sec => scanP tryMetaKV sec.length sec

/-- The `strings` section of a rule body:
`strings\s*:\s*(.*?)(?=condition\s*:|$)` (DOTALL), with the same greedy/lazy
resolution (and trailing-newline caveat) as the `meta` section. -/
def stringsSectionOf (rc : List Char) : Option (List Char) :=
  (afterKwColon "strings".data rc).map fun after =>
    takeUntilP (fun suf => isKwColonAt "condition".data suf)
      (after.dropWhile pyIsSpace)

/-- Source `extract_strings` (identical in both scripts). -/
def extract_strings (content rule_name : String) : List StrDef :=
  match findRuleContent content.data rule_name.data with
  | none => []
  | some rc =>
    match stringsSectionOf rc with
    | none => []
    | some sec => parseStringsSection sec

/-- The stripped condition text of a rule:
`condition\s*:\s*(.*)` (DOTALL) followed by `.strip()`. -/
def conditionStrOf (content rule_name : String) : Option String :=
  match findRuleContent content.data rule_name.data with
  | none => none
  | some rc =>
    match afterKwColon "condition".data rc with
    | none => none
    | some after => some (pyStrip ⟨after.dropWhile pyIsSpace⟩)

/-! ### `check_condition` -/
/-- Consume a nonempty `\d+` run. -/
def digitRun1 (cs : List Char) : Option (List Char) :=
  let w := cs.takeWhile Char.isDigit
  if w.isEmpty then none else some (cs.dropWhile Char.isDigit)

/-- Match `@\w+\s*\[\s*-\d+\s*\]` at the current position. -/
def negIndexAt (cs : List Char) : Bool :=
  match expectChar '@' cs with
  | none => false
  | some r0 =>
    match wordRun r0 with
    | none => false
    | some wr =>
      match expectChar '[' (wr.2.dropWhile pyIsSpace) with
      | none => false
      | some r2 =>
        match expectChar '-' (r2.dropWhile pyIsSpace) with
        | none => false
        | some r3 =>
          match digitRun1 r3 with
          | none => false
          | some r4 =>
            match expectChar ']' (r4.dropWhile pyIsSpace) with
            | some _ => true
            | none => false

/-- Source `re.search(r"@\w+\s*\[\s*-\d+\s*\]", s)` viewed as a Boolean. -/
def hasNegIndex : List Char → Bool
  | [] => false
  | c :: cs => negIndexAt (c :: cs) || hasNegIndex cs

/-- Source `check_condition`. -/
def check_condition (rule_name content : String) : List Issue :=
  match conditionStrOf content rule_name with
  | none => []
  | some cond =>
    (DEPRECATED_PATTERNS.flatMap fun pm =>
      if containsSeq (lowerList pm.1.data) (lowerList cond.data) then
        [w007Issue rule_name pm.2]
      else [])
    ++ (if hasNegIndex cond.data then [e008Issue rule_name] else [])

/-! ### `extract_rule_names` and the lint pipeline -/
/-- Consume a nonempty `\s+` run. -/
def spaceRun1 (cs : List Char) : Option (List Char) :=
  match cs with
  | c :: _ => if pyIsSpace c then some (cs.dropWhile pyIsSpace) else none
  | [] => none

/-- Consume the block-opening or inheritance marker `[:\x7b]`. -/
def colonOrBraceChar : List Char → Option (List Char)
  | x :: r5 => if x = ':' ∨ x = '\x7b' then some r5 else none
  | [] => none

/-- Match `rule\s+(\w+)\s*[:\x7b]` at the current position. -/
def tryRuleCore (cs : List Char) : Option (String × List Char) :=
  (stripPrefixChars "rule".data cs).bind fun r1 =>
  (spaceRun1 r1).bind fun r2 =>
  (wordRun r2).bind fun wr =>
  (colonOrBraceChar (wr.2.dropWhile pyIsSpace)).bind fun r5 =>
  some (⟨wr.1⟩, r5)

/-- The optional `(?:private\s+)?` group. -/
def privateStrip (cs : List Char) : Option (List Char) :=
  (stripPrefixChars "private".data cs).bind spaceRun1

/-- Match `(?:private\s+)?rule\s+(\w+)\s*[:\x7b]`: the optional group is tried
first and dropped on failure of the remainder. -/
def tryRuleName (cs : List Char) : Option (String × List Char) :=
  match privateStrip cs with
  | some r =>
    match tryRuleCore r with
    | some x => some x
    | none => tryRuleCore cs
  | none => tryRuleCore cs

/-- Source `extract_rule_names`: `re.findall` of the rule-header pattern. -/
def extract_rule_names (content : String) : List String :=
  scanP tryRuleName content.data.length content.data

/-- All checks of `lint_file` for one rule. -/
def ruleIssues (content : String) (rule_name : String) : List Issue :=
  check_naming_convention rule_name
  ++ check_metadata rule_name (extract_metadata content rule_name)
  ++ check_strings rule_name (extract_strings content rule_name)
  ++ check_string_modifiers rule_name (extract_strings content rule_name)
  ++ check_condition rule_name content

/-- The single issue recorded for an external-compiler failure. -/
def compilationIssue (err : String) : Issue :=
  ⟨"(compilation)", "error", "E000", "YARA-X compilation error: " ++ err, none⟩

/-- The issue list of `lint_file` once the file text is in hand: the outcome
of the external yara-x compiler (the `try/except yara_x.CompileError`) is a
parameter, and the style checks run on the raw text in either case. -/
def lintIssues (compileError : Option String) (content : String) : List Issue :=
  (match compileError with
   | some e => [compilationIssue e]
   | none => [])
  ++ (extract_rule_names content).flatMap (ruleIssues content)

/-! ### Claim C6: hex minimum-size error of `check_strings` -/
/-- Concrete (non-wildcard) bytes of a hex pattern under the decoder:
decoded length minus the number of wildcard positions. -/
def concreteByteCount (s : String) : Nat :=
  (hex_string_to_bytes s).1.length - (hex_string_to_bytes s).2.length

/-! ### Claim C9: negative array indexing in `check_condition` -/
/-- Claim-side reading of a negative-indexed array access, following the spec
words "indexing syntax with a literal negative integer": an identifier
followed by a bracketed literal negative integer, with no `@` sigil
required. -/
def negIndexBroadAt (cs : List Char) : Bool :=
  match wordRun cs with
  | none => false
  | some wr =>
    match expectChar '[' (wr.2.dropWhile pyIsSpace) with
    | none => false
    | some r2 =>
      match expectChar '-' (r2.dropWhile pyIsSpace) with
      | none => false
      | some r3 =>
        match digitRun1 r3 with
        | none => false
        | some r4 =>
          match expectChar ']' (r4.dropWhile pyIsSpace) with
          | some _ => true
          | none => false

/-- Claim-side search for a negative-indexed array access anywhere. -/
def hasNegIndexBroad : List Char → Bool
  | [] => false
  | c :: cs => negIndexBroadAt (c :: cs) || hasNegIndexBroad cs

/-! ## Theorems -/

/-! ### Facts about the sequence helpers -/
theorem startsSeq_of_eq_length {needle hay : List Nat}
    (h : needle.length = hay.length) :
    startsSeq needle hay = decide (hay = needle) := by
  induction needle generalizing hay with
  | nil =>
    cases hay with
    | nil => decide
    | cons b t => simp at h
  | cons a as ih =>
    cases hay with
    | nil => simp at h
    | cons b t =>
      simp only [List.length_cons, Nat.succ.injEq] at h
      simp only [startsSeq]
      by_cases hab : a = b
      · subst hab
        rw [if_pos rfl, ih h]
        by_cases ht : t = as
        · simp [ht]
        · simp [ht]
      · rw [if_neg hab]
        have : ¬ (b :: t = a :: as) := by
          intro hc
          exact hab (by injection hc with h1 h2; exact h1.symm)
        simp [this]

theorem startsSeq_false_of_longer {needle hay : List Nat}
    (h : hay.length < needle.length) : startsSeq needle hay = false := by
  induction needle generalizing hay with
  | nil => simp at h
  | cons a as ih =>
    cases hay with
    | nil => rfl
    | cons b t =>
      simp only [List.length_cons, Nat.succ_lt_succ_iff] at h
      simp only [startsSeq]
      by_cases hab : a = b
      · rw [if_pos hab, ih h]
      · rw [if_neg hab]

theorem containsSeq_false_of_longer {needle hay : List Nat}
    (h : hay.length < needle.length) : containsSeq needle hay = false := by
  induction hay with
  | nil =>
    cases needle with
    | nil => simp at h
    | cons a as => rfl
  | cons b t ih =>
    simp only [containsSeq]
    rw [startsSeq_false_of_longer h, ih (Nat.lt_of_le_of_lt (Nat.le_succ _) h)]
    rfl

/-- For equal lengths, Python `needle in hay` is just equality. -/
theorem containsSeq_of_eq_length {needle hay : List Nat}
    (h : needle.length = hay.length) :
    containsSeq needle hay = decide (hay = needle) := by
  cases hay with
  | nil =>
    cases needle with
    | nil => decide
    | cons a as => simp at h
  | cons b t =>
    simp only [containsSeq]
    rw [startsSeq_of_eq_length h,
      containsSeq_false_of_longer
        (show t.length < needle.length by rw [h, List.length_cons]; omega)]
    simp

theorem repeated_any_eq_mem (atom : List Nat) (h : atom.length = 4) :
    REPEATED_PATTERNS.any (fun p => containsSeq p.1 atom)
      = decide (atom ∈ badPatternsSpec) := by
  have e : ∀ p : List Nat, p.length = 4 →
      containsSeq p atom = decide (atom = p) := fun p hp =>
    containsSeq_of_eq_length (by omega)
  simp only [REPEATED_PATTERNS, List.any_cons, List.any_nil]
  rw [e [0x00, 0x00, 0x00, 0x00] rfl, e [0x90, 0x90, 0x90, 0x90] rfl,
    e [0xCC, 0xCC, 0xCC, 0xCC] rfl, e [0xFF, 0xFF, 0xFF, 0xFF] rfl,
    e [0x20, 0x20, 0x20, 0x20] rfl]
  simp [badPatternsSpec, List.mem_cons, Bool.decide_or]

/-- C1: for every 4-byte atom, `score_atom` returns `max 0 (100 - P)` with `P`
the cumulative penalty described by the claim (repeat penalty by distinct-byte
count, 15 per null byte, 60 at most once for a bad pattern, 30 at most once for
a common sequence, 10 for all-printable), hence the score lies in `[0, 100]`. -/
theorem c1_score_atom (atom : List Nat) (h : atom.length = 4) :
    score_atom atom = max 0 (100 - penaltySpec atom)
      ∧ 0 ≤ score_atom atom ∧ score_atom atom ≤ 100 := by
  have hmain : score_atom atom = max 0 (100 - penaltySpec atom) := by
    simp only [score_atom, penaltySpec]
    rw [if_neg (show ¬ atom.length ≠ 4 by omega), repeated_any_eq_mem atom h]
    simp only [decide_eq_true_eq]
    congr 1
    split_ifs <;> omega
  have hp : 0 ≤ penaltySpec atom := by
    simp only [penaltySpec]
    split_ifs <;> omega
  refine ⟨hmain, ?_, ?_⟩
  · rw [hmain]; exact le_max_left _ _
  · rw [hmain]
    exact max_le (by norm_num) (by omega)

/-- Witness for C1 at the concrete atom `[0x01, 0xE2, 0x33, 0x9A]`. -/
theorem c1_score_atom_witness :
    ([0x01, 0xE2, 0x33, 0x9A] : List Nat).length = 4
      ∧ score_atom [0x01, 0xE2, 0x33, 0x9A]
          = max 0 (100 - penaltySpec [0x01, 0xE2, 0x33, 0x9A])
      ∧ 0 ≤ score_atom [0x01, 0xE2, 0x33, 0x9A]
      ∧ score_atom [0x01, 0xE2, 0x33, 0x9A] ≤ 100 :=
  ⟨by decide, c1_score_atom [0x01, 0xE2, 0x33, 0x9A] (by decide)⟩

/-! ### Claim C2: `find_best_atom` -/
/-- Loop invariant of `find_best_atom`: after scanning the windows
`0, …, m-1`, the accumulator holds the earliest maximal strictly-positive
score (or the initial `(none, 0)` if every unskipped window scores `≤ 0`). -/
theorem fba_fold_spec (data wild : List Nat) (m : Nat) :
    0 ≤ ((List.range m).foldl (fbaStep data wild) (none, 0)).2
    ∧ (∀ i, i < m → fbaSkip wild i = false →
        score_atom (fbaWindow data i)
          ≤ ((List.range m).foldl (fbaStep data wild) (none, 0)).2)
    ∧ ((List.range m).foldl (fbaStep data wild) (none, 0)
          = ((none : Option String), (0 : Int))
       ∨ ∃ i, i < m ∧ fbaSkip wild i = false
           ∧ (List.range m).foldl (fbaStep data wild) (none, 0)
               = (some (bytesToHexUpper (fbaWindow data i)),
                  score_atom (fbaWindow data i))
           ∧ 0 < score_atom (fbaWindow data i)
           ∧ ∀ j, j < i → fbaSkip wild j = false →
               score_atom (fbaWindow data j) < score_atom (fbaWindow data i)) := by
  induction m with
  | zero => exact ⟨le_refl _, fun i hi => absurd hi (Nat.not_lt_zero i), Or.inl rfl⟩
  | succ n ih =>
    obtain ⟨ih0, ih1, ih2⟩ := ih
    rw [List.range_succ, List.foldl_append, List.foldl_cons, List.foldl_nil]
    set r := (List.range n).foldl (fbaStep data wild) (none, 0) with hr
    by_cases hskip : fbaSkip wild n
    · rw [fbaStep, if_pos hskip]
      refine ⟨ih0, fun i hi hsk => ?_, ?_⟩
      · rcases Nat.lt_succ_iff_lt_or_eq.mp hi with hlt | heq
        · exact ih1 i hlt hsk
        · subst heq; rw [hskip] at hsk; cases hsk
      · rcases ih2 with h0 | ⟨i, hi, hski, heq, hpos, hmax⟩
        · exact Or.inl h0
        · exact Or.inr ⟨i, Nat.lt_succ_of_lt hi, hski, heq, hpos, hmax⟩
    · rw [fbaStep, if_neg hskip]
      simp only []
      by_cases hlt : r.2 < score_atom (fbaWindow data n)
      · rw [if_pos hlt]
        refine ⟨le_of_lt (lt_of_le_of_lt ih0 hlt), fun i hi hsk => ?_, ?_⟩
        · rcases Nat.lt_succ_iff_lt_or_eq.mp hi with hl | heq
          · exact le_of_lt (lt_of_le_of_lt (ih1 i hl hsk) hlt)
          · subst heq; exact le_refl _
        · refine Or.inr ⟨n, Nat.lt_succ_self n, by simpa using hskip, rfl,
            lt_of_le_of_lt ih0 hlt, fun j hj hsk => ?_⟩
          exact lt_of_le_of_lt (ih1 j hj hsk) hlt
      · rw [if_neg hlt]
        refine ⟨ih0, fun i hi hsk => ?_, ?_⟩
        · rcases Nat.lt_succ_iff_lt_or_eq.mp hi with hl | heq
          · exact ih1 i hl hsk
          · subst heq; omega
        · rcases ih2 with h0 | ⟨i, hi, hski, heq, hpos, hmax⟩
          · exact Or.inl h0
          · exact Or.inr ⟨i, Nat.lt_succ_of_lt hi, hski, heq, hpos, hmax⟩

/-- C2 (amended): `find_best_atom` returns `(none, 0)` for inputs shorter than
4 bytes; for longer inputs it skips every window touching a wildcard offset and
returns the earliest window of maximal strictly-positive score — but it also
returns `(none, 0)` when every unskipped window scores `0`. -/
theorem c2_find_best_atom (data wild : List Nat) :
    (data.length < 4 → find_best_atom data wild = (none, 0))
    ∧ (4 ≤ data.length →
        0 ≤ (find_best_atom data wild).2
        ∧ (∀ i, i < data.length - 3 → fbaSkip wild i = false →
            score_atom (fbaWindow data i) ≤ (find_best_atom data wild).2)
        ∧ (find_best_atom data wild = (none, 0)
           ∨ ∃ i, i < data.length - 3 ∧ fbaSkip wild i = false
               ∧ find_best_atom data wild
                   = (some (bytesToHexUpper (fbaWindow data i)),
                      score_atom (fbaWindow data i))
               ∧ 0 < score_atom (fbaWindow data i)
               ∧ ∀ j, j < i → fbaSkip wild j = false →
                   score_atom (fbaWindow data j)
                     < score_atom (fbaWindow data i))) := by
  constructor
  · intro h; rw [find_best_atom, if_pos h]
  · intro h
    rw [find_best_atom, if_neg (by omega)]
    exact fba_fold_spec data wild (data.length - 3)

/-- Counterexample to C2 as stated: the all-zero 4-byte sequence (no wildcards)
is not shorter than 4 bytes, yet `find_best_atom` still returns `(none, 0)`
because its only window scores `0`. -/
theorem c2_counterexample :
    find_best_atom [0, 0, 0, 0] [] = (none, 0)
      ∧ ¬ (([0, 0, 0, 0] : List Nat).length < 4) := by decide

/-- Witness for C2 discharging both hypotheses at concrete inputs. -/
theorem c2_find_best_atom_witness :
    (([9] : List Nat).length < 4 ∧ find_best_atom [9] [] = (none, 0))
    ∧ (4 ≤ ([1, 2, 3, 4] : List Nat).length
        ∧ 0 ≤ (find_best_atom [1, 2, 3, 4] []).2) :=
  ⟨⟨by decide, (c2_find_best_atom [9] []).1 (by decide)⟩,
   ⟨by decide, ((c2_find_best_atom [1, 2, 3, 4] []).2 (by decide)).1⟩⟩

theorem expectChar_some {c : Char} {cs rest : List Char}
    (h : expectChar c cs = some rest) :
    cs = c :: rest ∧ rest.length < cs.length := by
  cases cs with
  | nil => cases h
  | cons x t =>
    simp only [expectChar] at h
    by_cases hx : x = c
    · rw [if_pos hx] at h
      injection h with h
      subst h; subst hx
      exact ⟨rfl, by simp⟩
    · rw [if_neg hx] at h; cases h

theorem length_dropWhile_le (p : Char → Bool) (l : List Char) :
    (l.dropWhile p).length ≤ l.length :=
  (List.dropWhile_sublist p).length_le

theorem wordRun_some {cs w rest : List Char} (h : wordRun cs = some (w, rest)) :
    rest.length < cs.length ∧ w ≠ [] ∧ (∀ ch ∈ w, isWordChar ch = true)
      ∧ w ++ rest = cs := by
  simp only [wordRun] at h
  by_cases he : (cs.takeWhile isWordChar).isEmpty
  · rw [if_pos he] at h; cases h
  · rw [if_neg he] at h
    injection h with h
    have hw : w = cs.takeWhile isWordChar := (congrArg Prod.fst h).symm
    have hr : rest = cs.dropWhile isWordChar := (congrArg Prod.snd h).symm
    have hwne : w ≠ [] := by
      rw [hw]; intro hc; rw [hc] at he; exact he rfl
    have happ : w ++ rest = cs := by
      rw [hw, hr]; exact List.takeWhile_append_dropWhile isWordChar cs
    refine ⟨?_, hwne, ?_, happ⟩
    · have : w.length + rest.length = cs.length := by
        rw [← happ, List.length_append]
      have : 1 ≤ w.length := by
        cases w with
        | nil => exact absurd rfl hwne
        | cons a t => simp
      omega
    · intro ch hch
      rw [hw] at hch
      exact List.mem_takeWhile_imp hch

theorem tryDelim_some {d : Char} {cs : List Char} {m : TextM} {rest : List Char}
    (h : tryDelim d cs = some (m, rest)) :
    rest.length < cs.length ∧ (∀ ch ∈ m.trailing.data, ch ≠ '\n') := by
  simp only [tryDelim, Option.bind_eq_some] at h
  obtain ⟨r0, h0, wr, hw, r3, h3, r5, h5, r6, h6, hfin⟩ := h
  injection hfin with hfin
  have hrest : rest = r6.dropWhile (fun c => c != '\n') :=
    (congrArg Prod.snd hfin).symm
  have hm : m = ⟨⟨'$' :: wr.1⟩, ⟨r5.takeWhile (fun c => c != d)⟩,
      ⟨r6.takeWhile (fun c => c != '\n')⟩⟩ := (congrArg Prod.fst hfin).symm
  constructor
  · have e0 := (expectChar_some h0).2
    have ew := (wordRun_some hw).1
    have e3 := (expectChar_some h3).2
    have e5 := (expectChar_some h5).2
    have e6 := (expectChar_some h6).2
    have d1 := length_dropWhile_le pyIsSpace wr.2
    have d2 := length_dropWhile_le pyIsSpace r3
    have d3 := length_dropWhile_le (fun c => c != d) r5
    have d4 := length_dropWhile_le (fun c => c != '\n') r6
    rw [hrest]
    omega
  · intro ch hch
    rw [hm] at hch
    have := List.mem_takeWhile_imp hch
    simpa using this

theorem tryHex_some {cs : List Char} {m : HexM} {rest : List Char}
    (h : tryHex cs = some (m, rest)) : rest.length < cs.length := by
  simp only [tryHex, Option.bind_eq_some] at h
  obtain ⟨r0, h0, wr, hw, r3, h3, r5, h5, r6, h6, hfin⟩ := h
  injection hfin with hfin
  have hrest : rest = r6 := (congrArg Prod.snd hfin).symm
  have e0 := (expectChar_some h0).2
  have ew := (wordRun_some hw).1
  have e3 := (expectChar_some h3).2
  have e5 := (expectChar_some h5).2
  have e6 := (expectChar_some h6).2
  have d1 := length_dropWhile_le pyIsSpace wr.2
  have d2 := length_dropWhile_le pyIsSpace r3
  have d3 := length_dropWhile_le (fun c => c != '\x7d') r5
  rw [hrest]
  omega

theorem scanP_eq_map_snd {α : Type} (M : List Char → Option (α × List Char)) :
    ∀ (fuel pos : Nat) (cs : List Char),
      scanP M fuel cs = (scanPPos M fuel pos cs).map Prod.snd := by
  intro fuel
  induction fuel with
  | zero => intro pos cs; rfl
  | succ n ih =>
    intro pos cs
    cases cs with
    | nil => rfl
    | cons c t =>
      simp only [scanP, scanPPos]
      cases M (c :: t) with
      | none => exact ih (pos + 1) t
      | some p =>
        simp only [List.map_cons]
        rw [ih (pos + ((c :: t).length - p.2.length)) p.2]

theorem scanPPos_pos_le {α : Type} (M : List Char → Option (α × List Char)) :
    ∀ (fuel pos : Nat) (cs : List Char) (q : Nat × α),
      q ∈ scanPPos M fuel pos cs → pos ≤ q.1 := by
  intro fuel
  induction fuel with
  | zero => intro pos cs q hq; cases hq
  | succ n ih =>
    intro pos cs q hq
    cases cs with
    | nil => cases hq
    | cons c t =>
      simp only [scanPPos] at hq
      cases hM : M (c :: t) with
      | none =>
        rw [hM] at hq
        exact Nat.le_of_succ_le (ih (pos + 1) t q hq)
      | some p =>
        rw [hM] at hq
        rcases List.mem_cons.mp hq with hq | hq
        · rw [hq]
        · have := ih _ _ q hq
          omega

/-- When the matcher always consumes input, the recorded match offsets are
strictly increasing: matches are reported in source order. -/
theorem scanPPos_chain {α : Type} (M : List Char → Option (α × List Char))
    (hM : ∀ cs m rest, M cs = some (m, rest) → rest.length < cs.length) :
    ∀ (fuel pos : Nat) (cs : List Char),
      List.Chain' (fun x y : Nat × α => x.1 < y.1) (scanPPos M fuel pos cs) := by
  intro fuel
  induction fuel with
  | zero => intro pos cs; exact List.chain'_nil
  | succ n ih =>
    intro pos cs
    cases cs with
    | nil => exact List.chain'_nil
    | cons c t =>
      simp only [scanPPos]
      cases hMc : M (c :: t) with
      | none => exact ih (pos + 1) t
      | some p =>
        refine List.Chain'.cons' (ih _ _) ?_
        intro y hy
        have hmem : y ∈ scanPPos M n (pos + ((c :: t).length - p.2.length)) p.2 :=
          List.mem_of_mem_head? hy
        have hle := scanPPos_pos_le M n _ p.2 y hmem
        have hlt := hM (c :: t) p.1 p.2 (by rw [hMc])
        simp only [List.length_cons] at hlt hle ⊢
        omega

/-- Every scanned match comes from a successful run of the matcher. -/
theorem scanP_mem {α : Type} (M : List Char → Option (α × List Char)) :
    ∀ (fuel : Nat) (cs : List Char) (m : α),
      m ∈ scanP M fuel cs → ∃ cs2 rest, M cs2 = some (m, rest) := by
  intro fuel
  induction fuel with
  | zero => intro cs m hm; cases hm
  | succ n ih =>
    intro cs m hm
    cases cs with
    | nil => cases hm
    | cons c t =>
      simp only [scanP] at hm
      cases hMc : M (c :: t) with
      | none => rw [hMc] at hm; exact ih t m hm
      | some p =>
        rw [hMc] at hm
        rcases List.mem_cons.mp hm with hm | hm
        · exact ⟨c :: t, p.2, by rw [hMc, hm]⟩
        · exact ih p.2 m hm

/-! ### Claim C3: report order of parsed string definitions -/
theorem map_kind_replicate {β : Type} (f : β → StrDef) (k : SKind)
    (hf : ∀ b, (f b).kind = k) (l : List β) :
    (l.map f).map StrDef.kind = List.replicate l.length k := by
  induction l with
  | nil => rfl
  | cons b t ih =>
    simp only [List.map_cons, List.length_cons, List.replicate_succ, hf b, ih]

/-- C3 (amended): the parsed sequence is grouped by kind — all text
definitions, then all byte definitions, then all regex definitions — and the
match offsets within each pass are strictly increasing, i.e. source order is
preserved only within each kind. -/
theorem c3_order_of_definitions (cs : List Char) :
    parseStringsSection cs
      = ((scanPPos (tryDelim '"') cs.length 0 cs).map (fun q => textDefOf q.2))
        ++ ((scanPPos tryHex cs.length 0 cs).map (fun q => hexDefOf q.2))
        ++ ((scanPPos (tryDelim '/') cs.length 0 cs).map (fun q => rexDefOf q.2))
    ∧ List.Chain' (fun a b : Nat => a < b)
        ((scanPPos (tryDelim '"') cs.length 0 cs).map Prod.fst)
    ∧ List.Chain' (fun a b : Nat => a < b)
        ((scanPPos tryHex cs.length 0 cs).map Prod.fst)
    ∧ List.Chain' (fun a b : Nat => a < b)
        ((scanPPos (tryDelim '/') cs.length 0 cs).map Prod.fst)
    ∧ (parseStringsSection cs).map StrDef.kind
        = List.replicate (scanP (tryDelim '"') cs.length cs).length SKind.text
          ++ List.replicate (scanP tryHex cs.length cs).length SKind.byte
          ++ List.replicate (scanP (tryDelim '/') cs.length cs).length SKind.regex := by
  refine ⟨?_, ?_, ?_, ?_, ?_⟩
  · simp only [parseStringsSection,
      scanP_eq_map_snd (tryDelim '"') cs.length 0 cs,
      scanP_eq_map_snd tryHex cs.length 0 cs,
      scanP_eq_map_snd (tryDelim '/') cs.length 0 cs, List.map_map]
    rfl
  · exact (List.chain'_map Prod.fst).mpr
      (scanPPos_chain _ (fun cs2 m rest h => (tryDelim_some h).1) cs.length 0 cs)
  · exact (List.chain'_map Prod.fst).mpr
      (scanPPos_chain _ (fun cs2 m rest h => tryHex_some h) cs.length 0 cs)
  · exact (List.chain'_map Prod.fst).mpr
      (scanPPos_chain _ (fun cs2 m rest h => (tryDelim_some h).1) cs.length 0 cs)
  · simp only [parseStringsSection, List.map_append]
    rw [map_kind_replicate textDefOf SKind.text (fun _ => rfl),
      map_kind_replicate hexDefOf SKind.byte (fun _ => rfl),
      map_kind_replicate rexDefOf SKind.regex (fun _ => rfl)]

/-- Counterexample to C3 as stated: in this strings section the hex definition
`$a` is written first, yet the parsed sequence lists the text definition `$b`
first, because all text definitions are extracted before all hex ones. -/
theorem c3_counterexample :
    (parseStringsSection ("$a = \x7b 41 42 43 44 \x7d\n$b = \"hi there\"\n").data).map
        StrDef.name = ["$b", "$a"]
    ∧ ("$a = \x7b 41 42 43 44 \x7d\n$b = \"hi there\"\n").data.take 2
        = ['$', 'a'] := by decide

/-- Counterexample to C4 as stated: for a hex definition followed by the
trailing token `wide`, the claim predicts modifier set `["wide"]`, but the
parser assigns hex definitions an empty modifier list. -/
theorem c4_counterexample :
    parseStringsSection ("$a = \x7b 41 42 43 44 \x7d wide").data
      = [⟨"$a", "41 42 43 44", SKind.byte, []⟩]
    ∧ (tryHexTrail ("$a = \x7b 41 42 43 44 \x7d wide").data).map
        (fun q => q.1.trailing) = some " wide"
    ∧ pySplit (pyStrip " wide") = ["wide"]
    ∧ ([] : List String) ≠ ["wide"] := by decide

/-- C4 (amended): text and regex definitions carry the whitespace-split
trailing tokens after the closing delimiter on the same line as their modifier
set, but byte (hex) definitions always carry an empty modifier set. -/
theorem c4_modifiers (cs : List Char) :
    (∀ d ∈ parseStringsSection cs, d.kind = SKind.byte → d.modifiers = [])
    ∧ (∀ d ∈ parseStringsSection cs, d.kind = SKind.text →
        ∃ m, m ∈ scanP (tryDelim '"') cs.length cs ∧ d = textDefOf m
          ∧ d.modifiers = pySplit (pyStrip m.trailing)
          ∧ ∀ ch ∈ m.trailing.data, ch ≠ '\n')
    ∧ (∀ d ∈ parseStringsSection cs, d.kind = SKind.regex →
        ∃ m, m ∈ scanP (tryDelim '/') cs.length cs ∧ d = rexDefOf m
          ∧ d.modifiers = pySplit (pyStrip m.trailing)
          ∧ ∀ ch ∈ m.trailing.data, ch ≠ '\n') := by
  refine ⟨?_, ?_, ?_⟩
  · intro d hd hk
    simp only [parseStringsSection, List.mem_append] at hd
    rcases hd with (hd | hd) | hd
    · rcases List.mem_map.mp hd with ⟨m, _, rfl⟩
      simp [textDefOf] at hk
    · rcases List.mem_map.mp hd with ⟨m, _, rfl⟩
      rfl
    · rcases List.mem_map.mp hd with ⟨m, _, rfl⟩
      simp [rexDefOf] at hk
  · intro d hd hk
    simp only [parseStringsSection, List.mem_append] at hd
    rcases hd with (hd | hd) | hd
    · rcases List.mem_map.mp hd with ⟨m, hm, rfl⟩
      obtain ⟨cs2, rest, hmt⟩ := scanP_mem _ _ _ _ hm
      exact ⟨m, hm, rfl, rfl, (tryDelim_some hmt).2⟩
    · rcases List.mem_map.mp hd with ⟨m, _, rfl⟩
      simp [hexDefOf] at hk
    · rcases List.mem_map.mp hd with ⟨m, _, rfl⟩
      simp [rexDefOf] at hk
  · intro d hd hk
    simp only [parseStringsSection, List.mem_append] at hd
    rcases hd with (hd | hd) | hd
    · rcases List.mem_map.mp hd with ⟨m, _, rfl⟩
      simp [textDefOf] at hk
    · rcases List.mem_map.mp hd with ⟨m, _, rfl⟩
      simp [hexDefOf] at hk
    · rcases List.mem_map.mp hd with ⟨m, hm, rfl⟩
      obtain ⟨cs2, rest, hmt⟩ := scanP_mem _ _ _ _ hm
      exact ⟨m, hm, rfl, rfl, (tryDelim_some hmt).2⟩

/-- Witness for C4 at concrete inputs: a hex definition with a trailing token
gets no modifiers, while a text definition gets the split trailing tokens. -/
theorem c4_modifiers_witness :
    ((⟨"$a", "41 42 43 44", SKind.byte, []⟩ : StrDef)
        ∈ parseStringsSection ("$a = \x7b 41 42 43 44 \x7d wide").data
      ∧ (⟨"$a", "41 42 43 44", SKind.byte, []⟩ : StrDef).modifiers = [])
    ∧ ∃ m, m ∈ scanP (tryDelim '"')
          ("$t = \"abcd\" wide ascii").data.length ("$t = \"abcd\" wide ascii").data
        ∧ (⟨"$t", "abcd", SKind.text, ["wide", "ascii"]⟩ : StrDef) = textDefOf m
        ∧ (⟨"$t", "abcd", SKind.text, ["wide", "ascii"]⟩ : StrDef).modifiers
            = pySplit (pyStrip m.trailing)
        ∧ ∀ ch ∈ m.trailing.data, ch ≠ '\n' :=
  ⟨⟨by decide,
    (c4_modifiers ("$a = \x7b 41 42 43 44 \x7d wide").data).1
      ⟨"$a", "41 42 43 44", SKind.byte, []⟩ (by decide) rfl⟩,
   (c4_modifiers ("$t = \"abcd\" wide ascii").data).2.1
     ⟨"$t", "abcd", SKind.text, ["wide", "ascii"]⟩ (by decide) rfl⟩

/-! ### Claim C5: short-circuit and the base64 error of the text analysis -/
/-- C5 (amended): a text definition shorter than 4 bytes yields exactly the
minimum-length error and short-circuits every further check; consequently the
base64 minimum-length error can never be emitted by the text analysis, since
fewer than 3 characters always takes the short-circuit. -/
theorem c5_text_short_circuit (sid value : String) (mods : List String) :
    (value.length < 4 →
      analyze_text_string sid value mods
        = ⟨sid, "text", value, value.length,
            [textMinLenIssue sid value.length], none⟩)
    ∧ ("base64" ∈ mods → value.length < 3 →
      base64Issue sid value.length ∉ (analyze_text_string sid value mods).issues) := by
  have hshort : value.length < 4 →
      analyze_text_string sid value mods
        = ⟨sid, "text", value, value.length,
            [textMinLenIssue sid value.length], none⟩ := by
    intro h
    simp only [analyze_text_string]
    rw [if_pos h]
  refine ⟨hshort, ?_⟩
  intro _ h3
  rw [hshort (by omega)]
  show base64Issue sid value.length ∉ [textMinLenIssue sid value.length]
  intro hc
  have hc2 := List.mem_singleton.mp hc
  have hmsg : base64Msg value.length = textMinLenMsg value.length := by
    have := congrArg AtomIssue.message hc2
    simpa [base64Issue, textMinLenIssue] using this
  revert h3 hmsg
  generalize value.length = n
  intro h3 hmsg
  interval_cases n <;> exact absurd hmsg (by decide)

/-- Counterexample to C5 as stated: a 2-character base64-modified definition
yields only the minimum-length error, never the base64 minimum-length error. -/
theorem c5_counterexample :
    (analyze_text_string "$a" "ab" ["base64"]).issues = [textMinLenIssue "$a" 2]
    ∧ base64Issue "$a" 2 ∉ (analyze_text_string "$a" "ab" ["base64"]).issues := by
  decide

/-- Witness for C5 at the concrete input `"ab"` with the base64 modifier. -/
theorem c5_text_short_circuit_witness :
    ("ab".length < 4
      ∧ analyze_text_string "$a" "ab" ["base64"]
          = ⟨"$a", "text", "ab", "ab".length,
              [textMinLenIssue "$a" "ab".length], none⟩)
    ∧ ("base64" ∈ ["base64"] ∧ "ab".length < 3
      ∧ base64Issue "$a" "ab".length
          ∉ (analyze_text_string "$a" "ab" ["base64"]).issues) :=
  ⟨⟨by decide, (c5_text_short_circuit "$a" "ab" ["base64"]).1 (by decide)⟩,
   ⟨by decide, by decide,
    (c5_text_short_circuit "$a" "ab" ["base64"]).2 (by decide) (by decide)⟩⟩

/-- Counterexample to C6 as stated: the pattern `41 [10-20] 42` resolves to
only 2 concrete bytes, yet the linter emits no issue at all, because its
regex count also picks up the two digit pairs inside the jump token. -/
theorem c6_counterexample :
    concreteByteCount "41 [10-20] 42" = 2
    ∧ (2 : Nat) < 4
    ∧ check_strings "R" [⟨"$a", "41 [10-20] 42", SKind.byte, []⟩] = [] := by
  decide

/-- C6 (amended): for a byte-pattern definition the minimum-size error is
emitted exactly when the number of non-overlapping two-hex-digit substrings
of the raw pattern — not the decoded concrete byte count — is below 4. -/
theorem c6_hex_min_bytes (rule_name : String) (d : StrDef)
    (h : d.kind = SKind.byte) :
    (e003Issue rule_name d.name (countHexPairs d.value.data)
        ∈ check_strings rule_name [d])
      ↔ countHexPairs d.value.data < 4 := by
  have hkt : ¬ (d.kind = SKind.text) := by rw [h]; intro hc; cases hc
  have hkr : ¬ (d.kind = SKind.regex) := by rw [h]; intro hc; cases hc
  simp only [check_strings, List.flatMap_cons, List.flatMap_nil,
    List.append_nil, check_strings_one, if_neg hkt, if_pos h, if_neg hkr,
    List.nil_append]
  constructor
  · intro hm
    rcases List.mem_append.mp hm with hm | hm
    · by_cases hc : countHexPairs d.value.data < 4
      · exact hc
      · rw [if_neg hc] at hm; cases hm
    · exfalso
      by_cases hw : hexLeadingWild d.value.data
      · rw [if_pos hw] at hm
        have h2 : ("E003" : String) = "W006" :=
          congrArg Issue.code (List.mem_singleton.mp hm)
        exact absurd h2 (by decide)
      · rw [if_neg hw] at hm; cases hm
  · intro hc
    exact List.mem_append.mpr
      (Or.inl (by rw [if_pos hc]; exact List.mem_singleton.mpr rfl))

/-- Witness for C6 at the concrete two-byte pattern `41 42`. -/
theorem c6_hex_min_bytes_witness :
    (⟨"$a", "41 42", SKind.byte, []⟩ : StrDef).kind = SKind.byte
    ∧ countHexPairs ("41 42").data < 4
    ∧ e003Issue "R" "$a" (countHexPairs ("41 42").data)
        ∈ check_strings "R" [⟨"$a", "41 42", SKind.byte, []⟩] :=
  ⟨rfl, by decide,
   (c6_hex_min_bytes "R" ⟨"$a", "41 42", SKind.byte, []⟩ rfl).mpr (by decide)⟩

/-! ### Claim C7: description checks of `check_metadata` -/
theorem mem_ite_singleton {α : Type} {P : Prop} [Decidable P] {a b : α} :
    (a ∈ (if P then [b] else ([] : List α))) ↔ P ∧ a = b := by
  by_cases hP : P <;> simp [hP]

theorem e001_part_code (rule_name : String) (md : List (String × String)) :
    ∀ i ∈ (["description", "author", "date"].flatMap fun f =>
      if dget md f = none then [e001Issue rule_name f] else []),
      i.code = "E001" := by
  intro i hi
  rcases List.mem_flatMap.mp hi with ⟨f, _, hif⟩
  rcases mem_ite_singleton.mp hif with ⟨_, rfl⟩
  rfl

/-- Membership in `check_metadata` for issues that are neither the E001 nor
the W004 issue reduces to membership in the description block. -/
theorem mem_check_metadata_desc {rule_name : String}
    {md : List (String × String)} {desc : String}
    (h : dget md "description" = some desc) (i : Issue)
    (hc1 : i.code ≠ "E001") (hc2 : i.code ≠ "W004") :
    i ∈ check_metadata rule_name md
      ↔ i ∈ ((if ¬ pyStartsWith desc "Detects" then [w002Issue rule_name] else [])
          ++ (if desc.length < 60 then [w003Issue rule_name desc.length] else [])
          ++ (if desc.length > 400 then [i002Issue rule_name desc.length] else [])) := by
  have hunf : check_metadata rule_name md
      = ((["description", "author", "date"].flatMap fun f =>
          if dget md f = none then [e001Issue rule_name f] else [])
        ++ ((if ¬ pyStartsWith desc "Detects" then [w002Issue rule_name] else [])
            ++ (if desc.length < 60 then [w003Issue rule_name desc.length] else [])
            ++ (if desc.length > 400 then [i002Issue rule_name desc.length] else [])))
        ++ (if dget md "reference" = none then [w004Issue rule_name] else []) := by
    unfold check_metadata
    rw [h]
  rw [hunf]
  constructor
  · intro hm
    rcases List.mem_append.mp hm with hm | hm
    · rcases List.mem_append.mp hm with hm | hm
      · exact absurd (e001_part_code rule_name md i hm) hc1
      · exact hm
    · exfalso
      by_cases hr : dget md "reference" = none
      · rw [if_pos hr] at hm
        have he := List.mem_singleton.mp hm
        exact hc2 (by rw [he]; rfl)
      · rw [if_neg hr] at hm; cases hm
  · intro hm
    exact List.mem_append.mpr (Or.inl (List.mem_append.mpr (Or.inr hm)))

/-- C7: whenever a description value is present, the begins-with-Detects
warning, the short-description warning (length below 60) and the
long-description info (length above 400) are each emitted if and only if
their respective condition holds. -/
theorem c7_description_checks (rule_name : String) (md : List (String × String))
    (desc : String) (h : dget md "description" = some desc) :
    ((w002Issue rule_name ∈ check_metadata rule_name md)
        ↔ ¬ pyStartsWith desc "Detects")
    ∧ ((w003Issue rule_name desc.length ∈ check_metadata rule_name md)
        ↔ desc.length < 60)
    ∧ ((i002Issue rule_name desc.length ∈ check_metadata rule_name md)
        ↔ desc.length > 400) := by
  refine ⟨?_, ?_, ?_⟩
  · rw [mem_check_metadata_desc h _ (by decide : ("W002" : String) ≠ "E001")
      (by decide : ("W002" : String) ≠ "W004")]
    constructor
    · intro hm
      rcases List.mem_append.mp hm with hm | hm
      · rcases List.mem_append.mp hm with hm | hm
        · exact (mem_ite_singleton.mp hm).1
        · have h2 : ("W002" : String) = "W003" :=
              congrArg Issue.code (mem_ite_singleton.mp hm).2
          exact absurd h2 (by decide)
      · have h2 : ("W002" : String) = "I002" :=
            congrArg Issue.code (mem_ite_singleton.mp hm).2
        exact absurd h2 (by decide)
    · intro hcond
      exact List.mem_append.mpr (Or.inl (List.mem_append.mpr
        (Or.inl (mem_ite_singleton.mpr ⟨hcond, rfl⟩))))
  · rw [mem_check_metadata_desc h _ (by decide : ("W003" : String) ≠ "E001")
      (by decide : ("W003" : String) ≠ "W004")]
    constructor
    · intro hm
      rcases List.mem_append.mp hm with hm | hm
      · rcases List.mem_append.mp hm with hm | hm
        · have h2 : ("W003" : String) = "W002" :=
              congrArg Issue.code (mem_ite_singleton.mp hm).2
          exact absurd h2 (by decide)
        · exact (mem_ite_singleton.mp hm).1
      · have h2 : ("W003" : String) = "I002" :=
            congrArg Issue.code (mem_ite_singleton.mp hm).2
        exact absurd h2 (by decide)
    · intro hcond
      exact List.mem_append.mpr (Or.inl (List.mem_append.mpr
        (Or.inr (mem_ite_singleton.mpr ⟨hcond, rfl⟩))))
  · rw [mem_check_metadata_desc h _ (by decide : ("I002" : String) ≠ "E001")
      (by decide : ("I002" : String) ≠ "W004")]
    constructor
    · intro hm
      rcases List.mem_append.mp hm with hm | hm
      · rcases List.mem_append.mp hm with hm | hm
        · have h2 : ("I002" : String) = "W002" :=
              congrArg Issue.code (mem_ite_singleton.mp hm).2
          exact absurd h2 (by decide)
        · have h2 : ("I002" : String) = "W003" :=
              congrArg Issue.code (mem_ite_singleton.mp hm).2
          exact absurd h2 (by decide)
      · exact (mem_ite_singleton.mp hm).1
    · intro hcond
      exact List.mem_append.mpr (Or.inr (mem_ite_singleton.mpr ⟨hcond, rfl⟩))

/-- Witness for C7: a 59-character description starting with `Detects`
triggers the short-description warning and not the begins-with warning; the
same description extended to 60 characters does not trigger it. -/
theorem c7_description_checks_witness :
    (dget [("description", "Detects suspicious test fixture activity in sample binaries")]
        "description"
      = some "Detects suspicious test fixture activity in sample binaries"
    ∧ w003Issue "R" ("Detects suspicious test fixture activity in sample binaries").length
        ∈ check_metadata "R"
          [("description", "Detects suspicious test fixture activity in sample binaries")]
    ∧ w002Issue "R" ∉ check_metadata "R"
          [("description", "Detects suspicious test fixture activity in sample binaries")])
    ∧ (dget [("description", "Detects suspicious test fixture activity in sample binaries!")]
        "description"
      = some "Detects suspicious test fixture activity in sample binaries!"
    ∧ w003Issue "R" ("Detects suspicious test fixture activity in sample binaries!").length
        ∉ check_metadata "R"
          [("description", "Detects suspicious test fixture activity in sample binaries!")]) :=
  ⟨⟨by decide,
    ((c7_description_checks "R"
      [("description", "Detects suspicious test fixture activity in sample binaries")]
      "Detects suspicious test fixture activity in sample binaries"
      (by decide)).2.1).mpr (by decide),
    fun hm => ((c7_description_checks "R"
      [("description", "Detects suspicious test fixture activity in sample binaries")]
      "Detects suspicious test fixture activity in sample binaries"
      (by decide)).1).mp hm (by decide)⟩,
   ⟨by decide,
    fun hm => absurd (((c7_description_checks "R"
      [("description", "Detects suspicious test fixture activity in sample binaries!")]
      "Detects suspicious test fixture activity in sample binaries!"
      (by decide)).2.1).mp hm) (by decide)⟩⟩

/-- Counterexample to C9 as stated: the condition `x[-1]` contains a
negative-indexed array access in the spec sense, yet `check_condition` emits
no issue at all, because the code's regex demands an `@` before the
identifier. -/
theorem c9_counterexample :
    conditionStrOf "rule R \x7b condition: x[-1] \x7d" "R" = some "x[-1]"
    ∧ hasNegIndexBroad ("x[-1]").data = true
    ∧ check_condition "R" "rule R \x7b condition: x[-1] \x7d" = [] := by decide

theorem filter_error_w007_singleton (rn m : String) :
    [w007Issue rn m].filter (fun i => i.severity == "error") = [] := by
  rw [List.filter_cons_of_neg]
  · rfl
  · intro hcontra
    have h2 : (("warning" : String) == "error") = true := hcontra
    exact absurd h2 (by decide)

theorem filter_error_e008_singleton (rn : String) :
    [e008Issue rn].filter (fun i => i.severity == "error") = [e008Issue rn] := by
  rw [List.filter_cons_of_pos]
  · rfl
  · exact (by decide : (("error" : String) == "error") = true)

/-- C9 (amended): the negative-index check only recognizes the `@`-prefixed
form `@\w+[-N]`; the error-severity issues of `check_condition` are exactly
one `E008` issue when that pattern occurs in the rule's condition text and
none otherwise (the deprecated-feature issues are warnings, never errors). -/
theorem c9_negative_index_errors (rule_name content : String) :
    (check_condition rule_name content).filter (fun i => i.severity == "error")
      = (match conditionStrOf content rule_name with
         | none => []
         | some cond =>
           if hasNegIndex cond.data then [e008Issue rule_name] else []) := by
  unfold check_condition
  cases hc : conditionStrOf content rule_name with
  | none => rfl
  | some cond =>
    simp only [DEPRECATED_PATTERNS, List.flatMap_cons, List.flatMap_nil,
      List.append_nil]
    by_cases h1 :
        containsSeq (lowerList ("entrypoint" : String).data) (lowerList cond.data) <;>
      by_cases h2 :
          containsSeq (lowerList ("PEiD" : String).data) (lowerList cond.data) <;>
        by_cases h3 : hasNegIndex cond.data <;>
          simp [h1, h2, h3, List.filter_append, w007Issue, e008Issue]

/-! ### Claim C10: `extract_rule_names` lacks a word boundary before `rule` -/
/-- C10: the input `myrule Foo \x7b` contains no rule declaration, yet the
extractor still reports `Foo`, because the pattern matches the trailing
`rule` of the identifier `myrule`. -/
theorem c10_rule_names_no_boundary :
    extract_rule_names "myrule Foo \x7b" = ["Foo"] := by decide

/-! ### Claim C8: compilation failure never suppresses structural analysis -/
theorem tryRuleCore_some {cs : List Char} {n : String} {rest : List Char}
    (h : tryRuleCore cs = some (n, rest)) :
    n.data ≠ [] ∧ ∀ ch ∈ n.data, isWordChar ch = true := by
  simp only [tryRuleCore, Option.bind_eq_some] at h
  obtain ⟨r1, h1, r2, h2, wr, hw, r5, h5, hfin⟩ := h
  injection hfin with hfin
  have hword := wordRun_some (show wordRun r2 = some (wr.1, wr.2) by rw [hw])
  have hn : n = ⟨wr.1⟩ := (congrArg Prod.fst hfin).symm
  rw [hn]
  exact ⟨fun hc => hword.2.1 hc, hword.2.2.1⟩

theorem tryRuleName_some {cs : List Char} {n : String} {rest : List Char}
    (h : tryRuleName cs = some (n, rest)) :
    n.data ≠ [] ∧ ∀ ch ∈ n.data, isWordChar ch = true := by
  unfold tryRuleName at h
  cases hp : privateStrip cs with
  | none => rw [hp] at h; exact tryRuleCore_some h
  | some r =>
    have h2 : (match tryRuleCore r with
        | some x => some x
        | none => tryRuleCore cs) = some (n, rest) := by
      rw [hp] at h; exact h
    cases hcr : tryRuleCore r with
    | none =>
      rw [hcr] at h2
      exact tryRuleCore_some h2
    | some x =>
      rw [hcr] at h2
      have h3 : some x = some (n, rest) := h2
      injection h3 with h3
      rw [h3] at hcr
      exact tryRuleCore_some hcr

/-- Every extracted rule name is a nonempty `\w+` run. -/
theorem extract_rule_names_wordlike (content : String) :
    ∀ n ∈ extract_rule_names content,
      n.data ≠ [] ∧ ∀ ch ∈ n.data, isWordChar ch = true := by
  intro n hn
  obtain ⟨cs2, rest, hM⟩ := scanP_mem _ _ _ _ hn
  exact tryRuleName_some hM

theorem check_naming_rule (rn : String) :
    ∀ i ∈ check_naming_convention rn, i.rule = rn := by
  intro i hi
  simp only [check_naming_convention] at hi
  split at hi
  · rcases List.mem_singleton.mp hi with rfl; rfl
  · split at hi
    · cases hi
    · rcases List.mem_singleton.mp hi with rfl; rfl

theorem check_metadata_rule (rn : String) (md : List (String × String)) :
    ∀ i ∈ check_metadata rn md, i.rule = rn := by
  intro i hi
  unfold check_metadata at hi
  rcases List.mem_append.mp hi with hi | hi
  · rcases List.mem_append.mp hi with hi | hi
    · rcases List.mem_flatMap.mp hi with ⟨f, _, hif⟩
      rcases mem_ite_singleton.mp hif with ⟨_, rfl⟩; rfl
    · cases hd : dget md "description" with
      | none => rw [hd] at hi; cases hi
      | some desc =>
        rw [hd] at hi
        rcases List.mem_append.mp hi with hi | hi
        · rcases List.mem_append.mp hi with hi | hi
          · rcases mem_ite_singleton.mp hi with ⟨_, rfl⟩; rfl
          · rcases mem_ite_singleton.mp hi with ⟨_, rfl⟩; rfl
        · rcases mem_ite_singleton.mp hi with ⟨_, rfl⟩; rfl
  · rcases mem_ite_singleton.mp hi with ⟨_, rfl⟩; rfl

theorem check_strings_one_rule (rn : String) (s : StrDef) :
    ∀ i ∈ check_strings_one rn s, i.rule = rn := by
  intro i hi
  unfold check_strings_one at hi
  rcases List.mem_append.mp hi with hi | hi
  · rcases List.mem_append.mp hi with hi | hi
    · by_cases hk : s.kind = SKind.text
      · rw [if_pos hk] at hi
        rcases List.mem_append.mp hi with hi | hi
        · rcases List.mem_append.mp hi with hi | hi
          · rcases mem_ite_singleton.mp hi with ⟨_, rfl⟩; rfl
          · rcases List.mem_flatMap.mp hi with ⟨fp, _, hif⟩
            rcases mem_ite_singleton.mp hif with ⟨_, rfl⟩; rfl
        · rcases mem_ite_singleton.mp hi with ⟨_, rfl⟩; rfl
      · rw [if_neg hk] at hi; cases hi
    · by_cases hk : s.kind = SKind.byte
      · rw [if_pos hk] at hi
        rcases List.mem_append.mp hi with hi | hi
        · rcases mem_ite_singleton.mp hi with ⟨_, rfl⟩; rfl
        · rcases mem_ite_singleton.mp hi with ⟨_, rfl⟩; rfl
      · rw [if_neg hk] at hi; cases hi
  · by_cases hk : s.kind = SKind.regex
    · rw [if_pos hk] at hi
      rcases List.mem_append.mp hi with hi | hi
      · rcases mem_ite_singleton.mp hi with ⟨_, rfl⟩; rfl
      · rcases mem_ite_singleton.mp hi with ⟨_, rfl⟩; rfl
    · rw [if_neg hk] at hi; cases hi

theorem check_strings_rule (rn : String) (strings : List StrDef) :
    ∀ i ∈ check_strings rn strings, i.rule = rn := by
  intro i hi
  rcases List.mem_flatMap.mp hi with ⟨s, _, his⟩
  exact check_strings_one_rule rn s i his

theorem check_string_modifiers_rule (rn : String) (strings : List StrDef) :
    ∀ i ∈ check_string_modifiers rn strings, i.rule = rn := by
  intro i hi
  rcases List.mem_flatMap.mp hi with ⟨s, _, his⟩
  rcases List.mem_append.mp his with his | his
  · rcases mem_ite_singleton.mp his with ⟨_, rfl⟩; rfl
  · rcases mem_ite_singleton.mp his with ⟨_, rfl⟩; rfl

theorem check_condition_rule (rn content : String) :
    ∀ i ∈ check_condition rn content, i.rule = rn := by
  intro i hi
  unfold check_condition at hi
  cases hc : conditionStrOf content rn with
  | none => rw [hc] at hi; cases hi
  | some cond =>
    rw [hc] at hi
    rcases List.mem_append.mp hi with hi | hi
    · rcases List.mem_flatMap.mp hi with ⟨pm, _, hif⟩
      rcases mem_ite_singleton.mp hif with ⟨_, rfl⟩; rfl
    · rcases mem_ite_singleton.mp hi with ⟨_, rfl⟩; rfl

/-- Every per-rule issue is scoped to its rule name. -/
theorem ruleIssues_rule (content rn : String) :
    ∀ i ∈ ruleIssues content rn, i.rule = rn := by
  intro i hi
  unfold ruleIssues at hi
  rcases List.mem_append.mp hi with hi | hi
  · rcases List.mem_append.mp hi with hi | hi
    · rcases List.mem_append.mp hi with hi | hi
      · rcases List.mem_append.mp hi with hi | hi
        · exact check_naming_rule rn i hi
        · exact check_metadata_rule rn _ i hi
      · exact check_strings_rule rn _ i hi
    · exact check_string_modifiers_rule rn _ i hi
  · exact check_condition_rule rn content i hi

/-- No style issue is ever scoped `(compilation)`: rule names are `\w+` runs
and cannot contain a parenthesis. -/
theorem lintIssues_none_rule (content : String) :
    ∀ i ∈ lintIssues none content, i.rule ≠ "(compilation)" := by
  intro i hi
  unfold lintIssues at hi
  rcases List.mem_flatMap.mp (by simpa using hi) with ⟨n, hn, hin⟩
  rw [ruleIssues_rule content n i hin]
  intro hcontra
  have hw := extract_rule_names_wordlike content n hn
  have hmem : '(' ∈ n.data := by rw [hcontra]; decide
  exact absurd (hw.2 '(' hmem) (by decide)

/-- C8: an external-compiler failure contributes exactly one issue — scoped
`(compilation)`, severity error, code E000 — prepended to the style issues,
and the style issues are identical to those of a successful compilation. -/
theorem c8_compilation_failure (e content : String) :
    lintIssues (some e) content = compilationIssue e :: lintIssues none content
    ∧ (lintIssues (some e) content).filter
        (fun i => i.rule == "(compilation)") = [compilationIssue e]
    ∧ (lintIssues (some e) content).filter
        (fun i => !(i.rule == "(compilation)")) = lintIssues none content
    ∧ (compilationIssue e).severity = "error"
    ∧ (compilationIssue e).rule = "(compilation)"
    ∧ (compilationIssue e).code = "E000" := by
  have hhead : lintIssues (some e) content
      = compilationIssue e :: lintIssues none content := by
    unfold lintIssues
    rfl
  have hnone : ∀ i ∈ lintIssues none content,
      (i.rule == "(compilation)") = false := fun i hi =>
    beq_eq_false_iff_ne.mpr (lintIssues_none_rule content i hi)
  refine ⟨hhead, ?_, ?_, rfl, rfl, rfl⟩
  · rw [hhead, List.filter_cons_of_pos
      (by exact (by decide : (("(compilation)" : String) == "(compilation)") = true)),
      List.filter_eq_nil_iff.mpr (fun i hi => by rw [hnone i hi]; decide)]
  · rw [hhead, List.filter_cons_of_neg
      (by rw [show ((compilationIssue e).rule == "(compilation)") = true from
          (by decide : (("(compilation)" : String) == "(compilation)") = true)]
          decide),
      List.filter_eq_self.mpr (fun i hi => by rw [hnone i hi]; decide)]

end YaraTools
